import Mathlib

/-!
Verification of the chat-to-transaction extraction engine of
`src/app.py` (`parse_chat_log`).  The Python function is shallowly
embedded below: strings are `List Char`, the two regular expressions are
translated into equivalent deterministic matchers (the only backtracking
points of the original patterns are bounded digit runs followed by
characters that are never digits, so greedy matching is deterministic),
and the per-line mutable state becomes an explicit `St` value threaded
through the line sequence.
-/

namespace AnikStock

/-- Python whitespace class used by `str.strip` and `\s`. -/
def pyWS (c : Char) : Bool :=
  c = ' ' || c = '\t' || c = '\n' || c = '\r' || c = '\x0b' || c = '\x0c'

/-- `str.lstrip()`: drop leading whitespace. -/
def ltrim (cs : List Char) : List Char := cs.dropWhile pyWS

/-- `str.rstrip()`: drop trailing whitespace. -/
def rtrim (cs : List Char) : List Char := (cs.reverse.dropWhile pyWS).reverse

/-- `str.strip()` as used on every line and message body. -/
def pyStrip (cs : List Char) : List Char := rtrim (ltrim cs)

/-- `item_name.rstrip(":- ")` from line 141 of `app.py`. -/
def rstripSet (cs : List Char) : List Char :=
  (cs.reverse.dropWhile (fun c => c = ':' || c = '-' || c = ' ')).reverse

/-- Python `needle in hay` substring test. -/
def containsSub (n : List Char) : List Char → Bool
  | [] => n.isPrefixOf ([] : List Char)
  | c :: t => n.isPrefixOf (c :: t) || containsSub n t

/-- Python `hay.find(needle)` returning the first index, `none` for `-1`. -/
def firstIdx (n : List Char) : List Char → Option Nat
  | [] => if n.isPrefixOf ([] : List Char) then some 0 else none
  | c :: t => if n.isPrefixOf (c :: t) then some 0 else (firstIdx n t).map (· + 1)

/-- `re.search(r'\d', s)` success. -/
def hasDigit (cs : List Char) : Bool := cs.any Char.isDigit

/-- Numeric value of a digit run, i.e. Python `int(qty)`. -/
def digitsToNat (cs : List Char) : Nat :=
  cs.foldl (fun n c => n * 10 + (c.toNat - '0'.toNat)) 0

/-- Match a single literal character. -/
def reqLit (a : Char) : List Char → Option (List Char)
  | c :: cs => if c = a then some cs else none
  | [] => none

/-- Greedy `\d{lo,hi}` in a context where the following pattern character
can never be a digit, so the maximal digit run is the only candidate. -/
def reqRun (lo hi : Nat) (cs : List Char) : Option (List Char × List Char) :=
  if lo ≤ (cs.takeWhile Char.isDigit).length ∧ (cs.takeWhile Char.isDigit).length ≤ hi then
    some (cs.takeWhile Char.isDigit, cs.dropWhile Char.isDigit)
  else none

/-- Greedy `\s?` in a context where the following pattern character is
never whitespace. -/
def optOne (cs : List Char) : List Char × List Char :=
  match cs with
  | c :: rest => if pyWS c then ([c], rest) else ([], c :: rest)
  | [] => ([], [])

/-- First half of the timestamp regex of line 23 of `app.py`:
`^\[(\d{1,2}/\d{1,2}/\d{2,4}),` — returns (group 1, text after the comma). -/
def matchDate (cs : List Char) : Option (List Char × List Char) :=
  (reqLit '[' cs).bind fun s1 =>
  (reqRun 1 2 s1).bind fun p1 =>
  (reqLit '/' p1.2).bind fun s2 =>
  (reqRun 1 2 s2).bind fun p2 =>
  (reqLit '/' p2.2).bind fun s3 =>
  (reqRun 2 4 s3).bind fun p3 =>
  (reqLit ',' p3.2).bind fun s4 =>
  some (p1.1 ++ '/' :: p2.1 ++ '/' :: p3.1, s4)

/-- Second half of the timestamp regex:
`\s?(\d{1,2}:\d{2}:\d{2}\s?[AP]M)\]` — returns group 2. -/
def matchTime (cs : List Char) : Option (List Char) :=
  (reqRun 1 2 (optOne cs).2).bind fun p4 =>
  (reqLit ':' p4.2).bind fun s5 =>
  (reqRun 2 2 s5).bind fun p5 =>
  (reqLit ':' p5.2).bind fun s6 =>
  (reqRun 2 2 s6).bind fun p6 =>
  match (optOne p6.2).2 with
  | c :: m :: b :: _ =>
      if (c = 'A' ∨ c = 'P') ∧ m = 'M' ∧ b = ']' then
        some (p4.1 ++ ':' :: p5.1 ++ ':' :: p6.1 ++ (optOne p6.2).1 ++ [c, 'M'])
      else none
  | _ => none

/-- `re.match(timestamp_pattern, line)` (line 31 of `app.py`),
returning `(group 1, group 2)`. -/
def matchTS (cs : List Char) : Option (List Char × List Char) :=
  (matchDate cs).bind fun d => (matchTime d.2).map fun t => (d.1, t)

/-- Characters other than the separator colon. -/
def notColon (c : Char) : Bool := c ≠ ':'

/-- Text strictly after the first `':'`, `none` if there is no colon. -/
def afterColon (cs : List Char) : Option (List Char) :=
  match cs.dropWhile notColon with
  | [] => none
  | _ :: r => some r

/-- `line.split(':', 2)` (line 38 of `app.py`): the code only uses
`len(parts) > 2` and `parts[2]`, i.e. the text after the second colon. -/
def part2Q (cs : List Char) : Option (List Char) :=
  (afterColon cs).bind afterColon

/-- `re.split(r' on \d', s, flags=re.IGNORECASE)[0]`: text before the
first occurrence of a space, `on` (any case), a space and a digit. -/
def onDateAt (cs : List Char) : Bool :=
  match cs with
  | ' ' :: c1 :: c2 :: ' ' :: d :: _ =>
      (c1.toLower = 'o') && (c2.toLower = 'n') && d.isDigit
  | _ => false

def beforeOnDate : List Char → List Char
  | [] => []
  | c :: rest => if onDateAt (c :: rest) then [] else c :: beforeOnDate rest

/-- Parser state: the rolling mutable variables of `parse_chat_log`
(lines 15–19 of `app.py`). -/
structure St where
  current_date : Option (List Char)
  current_time : Option (List Char)
  current_source : List Char
  current_dest : List Char
  is_valid : Bool
deriving DecidableEq, Repr

def initSt : St :=
  ⟨none, none, "Unknown".data, "Unknown".data, false⟩

/-- Header detection logic, lines 46–87 of `app.py`: extract source and
destination from a message body containing "Goods" and not "Needed",
and activate the transaction context. -/
def applyHeader (st : St) (mc : List Char) : St :=
  let tl := mc.map Char.toLower
  let st := { st with current_source := "Unknown".data, current_dest := "Unknown".data }
  let st :=
    match firstIdx "from ".data tl with
    | none => st
    | some f =>
        let start := f + 5
        let src :=
          match firstIdx " to ".data tl with
          | some e =>
              if start < e then pyStrip ((mc.drop start).take (e - start))
              else pyStrip (beforeOnDate (pyStrip (mc.drop start)))
          | none => pyStrip (beforeOnDate (pyStrip (mc.drop start)))
        { st with current_source := src }
  let st :=
    match firstIdx " to ".data tl with
    | none => st
    | some e0 =>
        let start := e0 + 4
        let dst :=
          match firstIdx " from ".data tl with
          | some e =>
              if start < e then pyStrip ((mc.drop start).take (e - start))
              else pyStrip (beforeOnDate (pyStrip (mc.drop start)))
          | none => pyStrip (beforeOnDate (pyStrip (mc.drop start)))
        { st with current_dest := dst }
  let st :=
    if st.current_source = "Unknown".data && containsSub "offloaded".data tl then
      { st with current_source := "Container/External".data }
    else st
  { st with is_valid := true }

/-- A row of the output table. -/
structure Rec where
  date : Option (List Char)
  time : Option (List Char)
  source : List Char
  destination : List Char
  item : List Char
  quantity : Int
  unit : List Char
deriving DecidableEq, Repr

/-- Unit alternation of the item regex on line 133 of `app.py`,
lower-cased. -/
def unitVocab : List (List Char) :=
  ["pcs".data, "ctns".data, "sets".data, "dozens".data, "packs".data,
   "pc".data, "ctn".data, "set".data, "dozen".data, "pack".data,
   "kg".data, "g".data, "l".data]

/-- Separator class `[:\-\s]` of the item regex. -/
def sepChar (c : Char) : Bool := c = ':' || c = '-' || pyWS c

/-- Match `[:\-\s]+(\d+)\s*(unit)?\s*$` against the whole of `cs`,
returning the digit run and the unit text as matched (original case).
The separator and digit runs are necessarily maximal (the character
required after each is never a member of the preceding class), and the
optional unit with surrounding `\s*` anchored at `$` succeeds exactly
when the trimmed tail is empty or equals one of the alternation words
case-insensitively. -/
def itemTail (cs : List Char) : Option (List Char × Option (List Char)) :=
  if (cs.takeWhile sepChar).isEmpty then none
  else if ((cs.dropWhile sepChar).takeWhile Char.isDigit).isEmpty then none
  else if (pyStrip ((cs.dropWhile sepChar).dropWhile Char.isDigit)).isEmpty then
    some ((cs.dropWhile sepChar).takeWhile Char.isDigit, none)
  else if ((pyStrip ((cs.dropWhile sepChar).dropWhile Char.isDigit)).map Char.toLower) ∈ unitVocab then
    some ((cs.dropWhile sepChar).takeWhile Char.isDigit,
          some (pyStrip ((cs.dropWhile sepChar).dropWhile Char.isDigit)))
  else none

/-- Lazy `(.+?)` of the item regex: the shortest nonempty prefix whose
remainder matches the anchored tail. -/
def itemGo (acc : List Char) : List Char → Option (List Char × List Char × Option (List Char))
  | [] => none
  | c :: rest =>
      match itemTail rest with
      | some (ds, u) => some (acc ++ [c], ds, u)
      | none => itemGo (acc ++ [c]) rest

/-- `re.search(r'(.+?)[:\-\s]+(\d+)\s*(pcs|...|L)?\s*$', clean_text, re.IGNORECASE)`
(line 133 of `app.py`): groups 1, 2, 3. -/
def itemSearch (cs : List Char) : Option (List Char × List Char × Option (List Char)) :=
  itemGo [] cs

/-- `re.sub(r'^\d+[\).]\s?', '', target_text)` (line 127 of `app.py`). -/
def stripNumbering (cs : List Char) : List Char :=
  let ds := cs.takeWhile Char.isDigit
  if ds.isEmpty then cs
  else
    match cs.dropWhile Char.isDigit with
    | b :: rest =>
        if b = ')' ∨ b = '.' then
          match rest with
          | w :: r2 => if pyWS w then r2 else rest
          | [] => []
        else cs
    | [] => cs

/-- Lines 122–152 of `app.py`: noise filter, numbering cleanup, item
regex, name cleanup and the length guard, producing a record tagged with
the current state. -/
def extractItem (st : St) (tt : List Char) : Option Rec :=
  if containsSub "Goods".data tt || containsSub "message was deleted".data tt then none
  else
    match itemSearch (stripNumbering tt) with
    | none => none
    | some (nm, ds, u) =>
        let name := rstripSet (pyStrip nm)
        if 1 < name.length then
          some ⟨st.current_date, st.current_time, st.current_source, st.current_dest,
                name, (digitsToNat ds : Int),
                (match u with | some w => w.map Char.toLower | none => "pcs".data)⟩
        else none

/-- Lines 101–152 of `app.py` ("Process Items"). -/
def partB (st : St) (line : List Char) : Option Rec :=
  if st.is_valid then
    if containsSub "Goods".data line && !containsSub "Needed".data line then none
    else
      match (if line.head? = some '[' then (part2Q line).map pyStrip else some line) with
      | none => none
      | some tt => extractItem st tt
  else none

/-- Lines 33–34 of `app.py`: capture the matched date and time. -/
def withTS (st : St) (dt : List Char × List Char) : St :=
  { st with current_date := some dt.1, current_time := some dt.2 }

/-- Lines 96–98 of `app.py`: drop the transaction flag when the message
content of a new timestamped non-header message has no digit. -/
def deactivate (st : St) (p : List Char) : St :=
  if st.is_valid && !hasDigit (pyStrip p) then { st with is_valid := false } else st

/-- One iteration of the `for line in lines` loop of `parse_chat_log`. -/
def stepLine (st : St) (raw : List Char) : St × Option Rec :=
  match matchTS (pyStrip raw) with
  | some dt =>
      match part2Q (pyStrip raw) with
      | none => (withTS st dt, none)
      | some p =>
          if containsSub "Goods".data (pyStrip p) && !containsSub "Needed".data (pyStrip p) then
            (applyHeader (withTS st dt) (pyStrip p), none)
          else
            (deactivate (withTS st dt) p, partB (deactivate (withTS st dt) p) (pyStrip raw))
  | none => (st, partB st (pyStrip raw))

/-- The whole loop, collecting records in scan order. -/
def runLines (st : St) : List (List Char) → St × List Rec
  | [] => (st, [])
  | l :: ls =>
      ((runLines (stepLine st l).1 ls).1,
       (stepLine st l).2.toList ++ (runLines (stepLine st l).1 ls).2)

/-- Python `content.split('\n')`. -/
def splitLines : List Char → List (List Char)
  | [] => [[]]
  | c :: cs =>
      if c = '\n' then [] :: splitLines cs
      else
        match splitLines cs with
        | l :: ls => (c :: l) :: ls
        | [] => [[c]]

/-- `df.drop_duplicates()` (line 158 of `app.py`): keep the first
occurrence of each full field tuple, preserving order. -/
def dedupAux (seen : List Rec) : List Rec → List Rec
  | [] => []
  | r :: rs => if r ∈ seen then dedupAux seen rs else r :: dedupAux (r :: seen) rs

def dedupRecords (l : List Rec) : List Rec := dedupAux [] l

/-- `parse_chat_log` of `app.py`: split into lines, fold the stateful
scan, drop exact duplicates. -/
def parse_chat_log (content : String) : List Rec :=
  dedupRecords (runLines initSt (splitLines content.data)).2

/-! ### Inversion facts for the timestamp matcher -/

theorem reqLit_eq_some {a : Char} {cs rest : List Char} (h : reqLit a cs = some rest) :
    cs = a :: rest := by
  cases cs with
  | nil => simp [reqLit] at h
  | cons c t =>
      simp only [reqLit] at h
      split at h
      · rename_i hc
        injection h with h2
        rw [hc, h2]
      · exact absurd h (by simp)

theorem reqRun_eq_some {lo hi : Nat} {cs r rest : List Char}
    (h : reqRun lo hi cs = some (r, rest)) :
    cs = r ++ rest ∧ (∀ c ∈ r, c.isDigit = true) ∧ lo ≤ r.length ∧ r.length ≤ hi := by
  unfold reqRun at h
  split at h
  · rename_i hcond
    injection h with h2
    obtain ⟨h3, h4⟩ := Prod.mk.injEq .. ▸ h2
    subst h3; subst h4
    exact ⟨(List.takeWhile_append_dropWhile _ _).symm,
           fun c hc => List.mem_takeWhile_imp hc, hcond.1, hcond.2⟩
  · exact absurd h (by simp)

theorem optOne_append (cs : List Char) : (optOne cs).1 ++ (optOne cs).2 = cs := by
  cases cs with
  | nil => rfl
  | cons c t => simp only [optOne]; split <;> simp

theorem optOne_ws (cs : List Char) : ∀ c ∈ (optOne cs).1, pyWS c = true := by
  cases cs with
  | nil => simp [optOne]
  | cons c t =>
      simp only [optOne]
      split
      · rename_i hws; simp [hws]
      · simp

theorem matchDate_shape {cs d rest : List Char} (h : matchDate cs = some (d, rest)) :
    ∃ mo da yr, cs = '[' :: (mo ++ '/' :: da ++ '/' :: yr ++ ',' :: rest) ∧
      (∀ c ∈ mo, c.isDigit = true) ∧ (∀ c ∈ da, c.isDigit = true) ∧
      (∀ c ∈ yr, c.isDigit = true) := by
  unfold matchDate at h
  simp only [Option.bind_eq_some] at h
  obtain ⟨s1, hA, p1, hB, s2, hC, p2, hD, s3, hE, p3, hF, s4, hG, hH⟩ := h
  simp only [Option.some.injEq, Prod.mk.injEq] at hH
  obtain ⟨-, hrest⟩ := hH
  subst hrest
  have e0 := reqLit_eq_some hA
  obtain ⟨e1, dig1, -, -⟩ := reqRun_eq_some hB
  have e2 := reqLit_eq_some hC
  obtain ⟨e3, dig2, -, -⟩ := reqRun_eq_some hD
  have e4 := reqLit_eq_some hE
  obtain ⟨e5, dig3, -, -⟩ := reqRun_eq_some hF
  have e6 := reqLit_eq_some hG
  refine ⟨p1.1, p2.1, p3.1, ?_, dig1, dig2, dig3⟩
  rw [e0, e1, e2, e3, e4, e5, e6]
  simp

theorem matchTime_shape {cs t : List Char} (h : matchTime cs = some t) :
    ∃ sp hh mi c1 c2 tl, cs = sp ++ hh ++ ':' :: mi ++ ':' :: c1 :: c2 :: tl ∧
      (∀ c ∈ sp, pyWS c = true) ∧ (∀ c ∈ hh, c.isDigit = true) ∧
      (∀ c ∈ mi, c.isDigit = true) ∧ c1.isDigit = true ∧ c2.isDigit = true := by
  unfold matchTime at h
  simp only [Option.bind_eq_some] at h
  obtain ⟨p4, hA, s5, hB, p5, hC, s6, hD, p6, hE, -⟩ := h
  obtain ⟨e1, dig1, -, -⟩ := reqRun_eq_some hA
  have e2 := reqLit_eq_some hB
  obtain ⟨e3, dig2, len2a, len2b⟩ := reqRun_eq_some hC
  have e4 := reqLit_eq_some hD
  obtain ⟨e5, dig3, len3a, len3b⟩ := reqRun_eq_some hE
  obtain ⟨c1, c2, hc⟩ := List.length_eq_two.mp (Nat.le_antisymm len3b len3a)
  refine ⟨(optOne cs).1, p4.1, p5.1, c1, c2, p6.2, ?_, optOne_ws cs, dig1, dig2,
    dig3 c1 (by rw [hc]; simp), dig3 c2 (by rw [hc]; simp)⟩
  conv_lhs => rw [← optOne_append cs]
  rw [e1, e2, e3, e4, e5, hc]
  simp

theorem digit_ne_colon {c : Char} (h : c.isDigit = true) : c ≠ ':' := by
  intro hc; subst hc; exact absurd h (by decide)

theorem ws_ne_colon {c : Char} (h : pyWS c = true) : c ≠ ':' := by
  intro hc; subst hc; exact absurd h (by decide)

theorem matchTS_shape {cs d t : List Char} (h : matchTS cs = some (d, t)) :
    ∃ pre mid c1 c2 tl, cs = ('[' :: pre) ++ ':' :: mid ++ ':' :: c1 :: c2 :: tl ∧
      (∀ x ∈ '[' :: pre, x ≠ ':') ∧ (∀ x ∈ mid, x ≠ ':') ∧
      c1.isDigit = true ∧ c2.isDigit = true := by
  unfold matchTS at h
  simp only [Option.bind_eq_some, Option.map_eq_some'] at h
  obtain ⟨dp, hD, t0, hT, -⟩ := h
  obtain ⟨mo, da, yr, hcs, digm, digd, digy⟩ :=
    @matchDate_shape cs dp.1 dp.2 (by rw [hD])
  obtain ⟨sp, hh, mi, c1, c2, tl, hrest, wsp, dighh, digmi, hc1, hc2⟩ := matchTime_shape hT
  refine ⟨mo ++ '/' :: da ++ '/' :: yr ++ ',' :: sp ++ hh, mi, c1, c2, tl, ?_, ?_, ?_, hc1, hc2⟩
  · rw [hcs, hrest]; simp
  · intro x hx
    rcases List.mem_cons.mp hx with rfl | hx
    · decide
    rcases List.mem_append.mp hx with hx | hx
    swap
    · exact digit_ne_colon (dighh x hx)
    rcases List.mem_append.mp hx with hx | hx
    swap
    · rcases List.mem_cons.mp hx with rfl | hx
      · decide
      · exact ws_ne_colon (wsp x hx)
    rcases List.mem_append.mp hx with hx | hx
    swap
    · rcases List.mem_cons.mp hx with rfl | hx
      · decide
      · exact digit_ne_colon (digy x hx)
    rcases List.mem_append.mp hx with hx | hx
    · exact digit_ne_colon (digm x hx)
    · rcases List.mem_cons.mp hx with rfl | hx
      · decide
      · exact digit_ne_colon (digd x hx)
  · exact fun x hx => digit_ne_colon (digmi x hx)

/-! ### The message body of a timestamp-matched line -/

theorem afterColon_append {a : List Char} (b : List Char) (ha : ∀ x ∈ a, x ≠ ':') :
    afterColon (a ++ ':' :: b) = some b := by
  induction a with
  | nil => simp [afterColon, notColon, List.dropWhile_cons]
  | cons x a ih =>
      have hx : x ≠ ':' := ha x (by simp)
      have ih2 := ih (fun y hy => ha y (by simp [hy]))
      simpa [afterColon, notColon, List.dropWhile_cons, hx] using ih2

theorem part2Q_append {a b : List Char} (c : List Char)
    (ha : ∀ x ∈ a, x ≠ ':') (hb : ∀ x ∈ b, x ≠ ':') :
    part2Q (a ++ ':' :: (b ++ ':' :: c)) = some c := by
  unfold part2Q
  rw [afterColon_append (b ++ ':' :: c) ha]
  exact afterColon_append c hb

/-- For every line matched by the timestamp pattern, `line.split(':', 2)`
has a third part, and that part begins with the two seconds digits of the
matched time. -/
theorem matchTS_part2Q {cs d t : List Char} (h : matchTS cs = some (d, t)) :
    ∃ c1 c2 tl, part2Q cs = some (c1 :: c2 :: tl) ∧
      c1.isDigit = true ∧ c2.isDigit = true := by
  obtain ⟨pre, mid, c1, c2, tl, hcs, hpre, hmid, hc1, hc2⟩ := matchTS_shape h
  refine ⟨c1, c2, tl, ?_, hc1, hc2⟩
  rw [hcs]
  have : ('[' :: pre) ++ ':' :: mid ++ ':' :: c1 :: c2 :: tl =
      ('[' :: pre) ++ ':' :: (mid ++ ':' :: (c1 :: c2 :: tl)) := by simp
  rw [this]
  exact part2Q_append _ hpre hmid

theorem matchTS_headq {cs d t : List Char} (h : matchTS cs = some (d, t)) :
    cs.head? = some '[' := by
  obtain ⟨pre, mid, c1, c2, tl, hcs, -⟩ := matchTS_shape h
  rw [hcs]; rfl

theorem digit_not_ws {c : Char} (h : c.isDigit = true) : pyWS c = false := by
  cases hw : pyWS c
  · rfl
  · exfalso
    simp only [pyWS, Bool.or_eq_true, decide_eq_true_eq] at hw
    rcases hw with ((((rfl | rfl) | rfl) | rfl) | rfl) | rfl <;> exact absurd h (by decide)

theorem mem_dropWhile_last {c : Char} (xs : List Char) (h : pyWS c = false) :
    c ∈ List.dropWhile pyWS (xs ++ [c]) := by
  induction xs with
  | nil => simp [List.dropWhile, h]
  | cons x xs ih =>
      rw [List.cons_append, List.dropWhile_cons]
      split
      · exact ih
      · simp

/-- The stripped message body of a timestamp-matched line always
contains a digit (it begins with the seconds of the timestamp). -/
theorem hasDigit_pyStrip_cons {c : Char} {l : List Char} (hc : c.isDigit = true) :
    hasDigit (pyStrip (c :: l)) = true := by
  have hw := digit_not_ws hc
  have h1 : ltrim (c :: l) = c :: l := by
    simp [ltrim, List.dropWhile_cons, hw]
  have h2 : c ∈ pyStrip (c :: l) := by
    rw [pyStrip, h1, rtrim]
    rw [List.mem_reverse]
    have : (c :: l).reverse = l.reverse ++ [c] := by simp
    rw [this]
    exact mem_dropWhile_last _ hw
  exact List.any_eq_true.mpr ⟨c, h2, hc⟩

theorem matchTS_hasDigit {cs d t p : List Char} (h : matchTS cs = some (d, t))
    (hp : part2Q cs = some p) : hasDigit (pyStrip p) = true := by
  obtain ⟨c1, c2, tl, hq, hc1, -⟩ := matchTS_part2Q h
  rw [hp] at hq
  injection hq with hq
  rw [hq]
  exact hasDigit_pyStrip_cons hc1

/-! ### Substring monotonicity -/

theorem containsSub_iff {n h : List Char} : containsSub n h = true ↔ n <:+: h := by
  induction h with
  | nil =>
      simp only [containsSub, List.isPrefixOf_iff_prefix]
      constructor
      · exact fun hp => hp.isInfix
      · intro hi
        have hn := List.infix_nil.mp hi
        subst hn
        exact List.prefix_refl _
  | cons c t ih =>
      simp only [containsSub, Bool.or_eq_true, List.isPrefixOf_iff_prefix, ih,
        List.infix_cons_iff]

theorem containsSub_mono {n s l : List Char} (h1 : containsSub n s = true)
    (h2 : s <:+: l) : containsSub n l = true :=
  containsSub_iff.mpr ((containsSub_iff.mp h1).trans h2)

theorem afterColon_suffix {cs p : List Char} (h : afterColon cs = some p) : p <:+ cs := by
  unfold afterColon at h
  rcases hd : cs.dropWhile notColon with _ | ⟨x, r⟩ <;> rw [hd] at h
  · exact absurd h (by simp)
  · injection h with h2
    have hs : r <:+ cs := (List.suffix_cons x r).trans (hd ▸ List.dropWhile_suffix notColon)
    exact h2 ▸ hs

theorem part2Q_suffix {cs p : List Char} (h : part2Q cs = some p) : p <:+ cs := by
  unfold part2Q at h
  rw [Option.bind_eq_some] at h
  obtain ⟨q, h1, h2⟩ := h
  exact (afterColon_suffix h2).trans (afterColon_suffix h1)

theorem pyStrip_within (cs : List Char) : pyStrip cs <:+: cs := by
  have h1 : rtrim (ltrim cs) <+: ltrim cs := by
    unfold rtrim
    rw [← List.reverse_reverse (ltrim cs)]
    exact List.reverse_prefix.mpr (List.reverse_reverse _ ▸ List.dropWhile_suffix pyWS)
  have h2 : ltrim cs <:+ cs := List.dropWhile_suffix pyWS
  exact h1.isInfix.trans h2.isInfix

/-! ### Preservation of the transaction flag -/

theorem applyHeader_is_valid (st : St) (mc : List Char) :
    (applyHeader st mc).is_valid = true := rfl

theorem withTS_is_valid (st : St) (dt : List Char × List Char) :
    (withTS st dt).is_valid = st.is_valid := rfl

theorem deactivate_of_hasDigit {p : List Char} (st : St)
    (h : hasDigit (pyStrip p) = true) : deactivate st p = st := by
  unfold deactivate
  rw [h]
  simp

theorem stepLine_is_valid {st : St} (raw : List Char) (h : st.is_valid = true) :
    (stepLine st raw).1.is_valid = true := by
  unfold stepLine
  cases hm : matchTS (pyStrip raw) with
  | none => exact h
  | some dt =>
      dsimp only
      cases hp : part2Q (pyStrip raw) with
      | none => exact h
      | some p =>
          dsimp only
          split
          · exact applyHeader_is_valid _ _
          · rw [deactivate_of_hasDigit _ (matchTS_hasDigit hm hp)]
            exact h

/-- Claim C2: once `is_valid_transaction` is true it never becomes false
again: processing any further list of lines from a state with the flag
set leaves the flag set, because the deactivation test on lines 96-98 of
`app.py` looks at the text after the second colon, which always begins
with the two seconds digits of the matched timestamp. -/
theorem claim2_is_valid_monotone {st : St} (ls : List (List Char)) (h : st.is_valid = true) :
    (runLines st ls).1.is_valid = true := by
  induction ls generalizing st with
  | nil => exact h
  | cons l ls ih => exact ih (stepLine_is_valid l h)

/-! ### A "Goods … Needed" message only captures the timestamp -/

theorem extractItem_goods {st : St} {tt : List Char}
    (h : containsSub "Goods".data tt = true) : extractItem st tt = none := by
  unfold extractItem
  rw [h]
  rfl

/-- Claim C3 (amended): a timestamped line whose message body contains
both "Goods" and "Needed" never starts a transaction context and never
yields a record, but it also does not deactivate an existing context:
the whole step only captures the timestamp and leaves every other state
field (including the active flag) unchanged. -/
theorem claim3_amended (st : St) (raw : List Char) (d t p : List Char)
    (hm : matchTS (pyStrip raw) = some (d, t))
    (hp : part2Q (pyStrip raw) = some p)
    (hG : containsSub "Goods".data (pyStrip p) = true)
    (hN : containsSub "Needed".data (pyStrip p) = true) :
    stepLine st raw = (withTS st (d, t), none) := by
  have hd : hasDigit (pyStrip p) = true := matchTS_hasDigit hm hp
  have hNline : containsSub "Needed".data (pyStrip raw) = true :=
    containsSub_mono hN ((pyStrip_within p).trans (part2Q_suffix hp).isInfix)
  have hB : partB (withTS st (d, t)) (pyStrip raw) = none := by
    unfold partB
    cases hv : st.is_valid with
    | false =>
        have : (withTS st (d, t)).is_valid = false := hv
        simp [this]
    | true =>
        have h1 : (withTS st (d, t)).is_valid = true := hv
        simp [h1, hNline, matchTS_headq hm, hp, extractItem_goods hG]
  unfold stepLine
  rw [hm]
  dsimp only
  rw [hp]
  simp only [hG, hN, Bool.not_true, Bool.and_false, Bool.false_eq_true, if_false]
  rw [deactivate_of_hasDigit _ hd, hB]

/-! ### Field invariants of produced records -/

theorem itemTail_unit {cs ds w : List Char} (h : itemTail cs = some (ds, some w)) :
    w.map Char.toLower ∈ unitVocab := by
  unfold itemTail at h
  split at h
  · exact absurd h (by simp)
  split at h
  · exact absurd h (by simp)
  split at h
  · exact absurd h (by simp)
  split at h
  · rename_i hmem
    simp only [Option.some.injEq, Prod.mk.injEq] at h
    obtain ⟨-, h2⟩ := h
    exact h2 ▸ hmem
  · exact absurd h (by simp)

theorem itemGo_unit {cs acc nm ds w : List Char}
    (h : itemGo acc cs = some (nm, ds, some w)) :
    w.map Char.toLower ∈ unitVocab := by
  induction cs generalizing acc with
  | nil => simp [itemGo] at h
  | cons c rest ih =>
      unfold itemGo at h
      cases ht : itemTail rest with
      | none => rw [ht] at h; exact ih h
      | some du =>
          obtain ⟨ds0, u0⟩ := du
          rw [ht] at h
          simp only [Option.some.injEq, Prod.mk.injEq] at h
          obtain ⟨-, -, h3⟩ := h
          exact itemTail_unit (h3 ▸ ht)

theorem extractItem_spec {st : St} {tt : List Char} {r : Rec}
    (h : extractItem st tt = some r) :
    0 ≤ r.quantity ∧ r.unit ∈ unitVocab := by
  unfold extractItem at h
  split at h
  · exact absurd h (by simp)
  cases hs : itemSearch (stripNumbering tt) with
  | none => rw [hs] at h; exact absurd h (by simp)
  | some ndu =>
      obtain ⟨nm, ds, u⟩ := ndu
      rw [hs] at h
      dsimp only at h
      split at h
      · injection h with h2
        subst h2
        refine ⟨Int.natCast_nonneg _, ?_⟩
        cases u with
        | none =>
            have hpcs : "pcs".data ∈ unitVocab := by decide
            exact hpcs
        | some w => exact itemGo_unit hs
      · exact absurd h (by simp)

theorem partB_spec {st : St} {line : List Char} {r : Rec}
    (h : partB st line = some r) : 0 ≤ r.quantity ∧ r.unit ∈ unitVocab := by
  unfold partB at h
  split at h
  · split at h
    · exact absurd h (by simp)
    · cases hsc : (if line.head? = some '[' then (part2Q line).map pyStrip else some line) with
      | none => rw [hsc] at h; exact absurd h (by simp)
      | some tt => rw [hsc] at h; exact extractItem_spec h
  · exact absurd h (by simp)

theorem stepLine_spec {st : St} {raw : List Char} {r : Rec}
    (h : (stepLine st raw).2 = some r) : 0 ≤ r.quantity ∧ r.unit ∈ unitVocab := by
  unfold stepLine at h
  cases hm : matchTS (pyStrip raw) with
  | none => rw [hm] at h; exact partB_spec h
  | some dt =>
      rw [hm] at h
      dsimp only at h
      cases hp : part2Q (pyStrip raw) with
      | none => rw [hp] at h; exact absurd h (by simp)
      | some p =>
          rw [hp] at h
          dsimp only at h
          split at h
          · exact absurd h (by simp)
          · exact partB_spec h

theorem runLines_spec {st : St} {ls : List (List Char)} {r : Rec}
    (h : r ∈ (runLines st ls).2) : 0 ≤ r.quantity ∧ r.unit ∈ unitVocab := by
  induction ls generalizing st with
  | nil => simp [runLines] at h
  | cons l ls ih =>
      simp only [runLines, List.mem_append] at h
      rcases h with h | h
      · cases hsl : (stepLine st l).2 with
        | none => rw [hsl] at h; simp at h
        | some r2 =>
            rw [hsl] at h
            simp only [Option.toList_some, List.mem_singleton] at h
            subst h
            exact stepLine_spec hsl
      · exact ih h

theorem mem_of_mem_dedupAux {seen l : List Rec} {r : Rec}
    (h : r ∈ dedupAux seen l) : r ∈ l := by
  induction l generalizing seen with
  | nil => simp [dedupAux] at h
  | cons x l ih =>
      unfold dedupAux at h
      split at h
      · exact List.mem_cons_of_mem _ (ih h)
      · rcases List.mem_cons.mp h with rfl | h2
        · exact List.mem_cons_self _ _
        · exact List.mem_cons_of_mem _ (ih h2)

/-! ### Deduplication -/

theorem dedupAux_sublist (seen l : List Rec) : List.Sublist (dedupAux seen l) l := by
  induction l generalizing seen with
  | nil => simp [dedupAux]
  | cons x l ih =>
      unfold dedupAux
      split
      · exact (ih seen).cons x
      · exact (ih (x :: seen)).cons₂ x

theorem not_mem_dedupAux_of_mem_seen {seen l : List Rec} {r : Rec}
    (h : r ∈ seen) : r ∉ dedupAux seen l := by
  induction l generalizing seen with
  | nil => simp [dedupAux]
  | cons x l ih =>
      unfold dedupAux
      split
      · exact ih h
      · intro hmem
        rcases List.mem_cons.mp hmem with rfl | h2
        · rename_i hx; exact hx h
        · exact ih (List.mem_cons_of_mem _ h) h2

theorem dedupAux_nodup (seen l : List Rec) : (dedupAux seen l).Nodup := by
  induction l generalizing seen with
  | nil => simp [dedupAux]
  | cons x l ih =>
      unfold dedupAux
      split
      · exact ih seen
      · exact List.nodup_cons.mpr
          ⟨not_mem_dedupAux_of_mem_seen (List.mem_cons_self _ _), ih (x :: seen)⟩

theorem mem_dedupAux_of_mem {seen l : List Rec} {r : Rec}
    (h : r ∈ l) (hn : r ∉ seen) : r ∈ dedupAux seen l := by
  induction l generalizing seen with
  | nil => cases h
  | cons x l ih =>
      unfold dedupAux
      split
      · rename_i hx
        rcases List.mem_cons.mp h with rfl | h2
        · exact absurd hx hn
        · exact ih h2 hn
      · rcases List.mem_cons.mp h with rfl | h2
        · exact List.mem_cons_self _ _
        · by_cases hrx : r = x
          · subst hrx; exact List.mem_cons_self _ _
          · refine List.mem_cons_of_mem _ (ih h2 ?_)
            simp only [List.mem_cons]
            rintro (rfl | hs)
            · exact hrx rfl
            · exact hn hs

theorem dedupAux_eq_self {seen l : List Rec}
    (hseen : ∀ s ∈ seen, s ∉ l) (hl : l.Nodup) : dedupAux seen l = l := by
  induction l generalizing seen with
  | nil => rfl
  | cons x l ih =>
      unfold dedupAux
      split
      · rename_i hx
        exact absurd (List.mem_cons_self x l) (hseen x hx)
      · refine congrArg (x :: ·) (ih ?_ (List.nodup_cons.mp hl).2)
        intro s hs
        rcases List.mem_cons.mp hs with rfl | hs2
        · exact (List.nodup_cons.mp hl).1
        · exact fun hsl => hseen s hs2 (List.mem_cons_of_mem _ hsl)

/-! ### A transcript with no "Goods" keyword yields no records -/

theorem stepLine_no_goods {st : St} {raw : List Char}
    (hng : containsSub "Goods".data (pyStrip raw) = false) (hv : st.is_valid = false) :
    (stepLine st raw).1.is_valid = false ∧ (stepLine st raw).2 = none := by
  unfold stepLine
  cases hm : matchTS (pyStrip raw) with
  | none =>
      refine ⟨hv, ?_⟩
      show partB st (pyStrip raw) = none
      simp [partB, hv]
  | some dt =>
      dsimp only
      cases hp : part2Q (pyStrip raw) with
      | none => exact ⟨hv, rfl⟩
      | some p =>
          dsimp only
          have hgp : containsSub "Goods".data (pyStrip p) = false := by
            cases hgg : containsSub "Goods".data (pyStrip p)
            · rfl
            · exact absurd
                (containsSub_mono hgg ((pyStrip_within p).trans (part2Q_suffix hp).isInfix))
                (by simp [hng])
          simp only [hgp, Bool.false_and, Bool.false_eq_true, if_false]
          have hde : deactivate (withTS st dt) p = withTS st dt := by
            unfold deactivate
            have h2 : (withTS st dt).is_valid = false := hv
            rw [h2]
            simp
          rw [hde]
          refine ⟨hv, ?_⟩
          show partB (withTS st dt) (pyStrip raw) = none
          have h2 : (withTS st dt).is_valid = false := hv
          simp [partB, h2]

theorem runLines_no_goods {st : St} {ls : List (List Char)}
    (hng : ∀ l ∈ ls, containsSub "Goods".data (pyStrip l) = false)
    (hv : st.is_valid = false) : (runLines st ls).2 = [] := by
  induction ls generalizing st with
  | nil => rfl
  | cons l ls ih =>
      obtain ⟨h1, h2⟩ := stepLine_no_goods (hng l (by simp)) hv
      simp only [runLines, h2, Option.toList_none, List.nil_append]
      exact ih (fun x hx => hng x (by simp [hx])) h1

/-! ### Claim theorems, counterexamples and witnesses -/

/-- Claim C1 (code behavior at the failing input): a new timestamped
reply whose actual message text ("ok thanks") contains no digit does NOT
transition the context to idle, because the digit test is applied to the
text after the second colon, which starts with the seconds of the
timestamp; the item line after the reply is still attributed to the
preceding header, producing a record. -/
theorem claim1_failing_eval :
    parse_chat_log ("[1/27/25, 8:07:58 AM] A: Goods from Store A to Shop B\n[1/27/25, 8:08:30 AM] B: ok thanks\n[1/27/25, 8:09:00 AM] A: Rice: 50kg") =
      [⟨some "1/27/25".data, some "8:09:00 AM".data, "Store A".data, "Shop B".data,
        "00 AM] A: Rice".data, 50, "kg".data⟩] := by decide

/-- Witness for claim C2 at a concrete active state and a concrete
digit-free conversational reply line. -/
theorem claim2_witness :
    (⟨none, none, "Unknown".data, "Unknown".data, true⟩ : St).is_valid = true ∧
    (runLines ⟨none, none, "Unknown".data, "Unknown".data, true⟩
      ["[1/1/25, 8:00:00 AM] B: ok thanks".data]).1.is_valid = true :=
  ⟨by decide, claim2_is_valid_monotone _ (by decide)⟩

/-- Claim C3 counterexample: after a "Goods Needed" header the context
stays active, so a numbered digit-bearing line that follows it still
yields a record (attributed to the earlier header); the claim that such
a header forces the context to inactive is false on the code. -/
theorem claim3_counterexample :
    parse_chat_log ("[1/1/25, 8:00:00 AM] A: Goods from Store A to Shop B\n[1/1/25, 8:01:00 AM] A: Goods Needed\n1. Soap 5pcs") =
      [⟨some "1/1/25".data, some "8:01:00 AM".data, "Store A".data, "Shop B".data,
        "Soap".data, 5, "pcs".data⟩] := by decide

/-- Witness for the amended claim C3 at a concrete "Goods Needed" line. -/
theorem claim3_witness :
    stepLine initSt "[1/1/25, 8:01:00 AM] A: Goods Needed".data =
      (withTS initSt ("1/1/25".data, "8:01:00 AM".data), none) :=
  claim3_amended initSt _ _ _ ("00 AM] A: Goods Needed".data)
    (by decide) (by decide) (by decide) (by decide)

/-- Claim C4: for every line matched by the timestamp pattern the
malformed-line skip is unreachable (the split always has a third part)
and that part begins with the seconds digits of the timestamp; on a
concrete timestamped item line the extracted record's item field
therefore carries the "SS AM] sender:" prefix. -/
theorem claim4_body_prefix :
    (∀ cs d t, matchTS cs = some (d, t) →
      ∃ c1 c2 tl, part2Q cs = some (c1 :: c2 :: tl) ∧
        c1.isDigit = true ∧ c2.isDigit = true) ∧
    parse_chat_log ("[1/1/25, 9:05:07 AM] A: Goods from Store A to Shop B\n[1/1/25, 9:06:08 AM] Bob: Rice: 50kg") =
      [⟨some "1/1/25".data, some "9:06:08 AM".data, "Store A".data, "Shop B".data,
        "08 AM] Bob: Rice".data, 50, "kg".data⟩] :=
  ⟨fun _ _ _ h => matchTS_part2Q h, by decide⟩

/-- Witness for claim C4 at a concrete timestamped line. -/
theorem claim4_witness :
    ∃ c1 c2 tl, part2Q "[1/1/25, 9:06:08 AM] Bob: Rice: 50kg".data =
        some (c1 :: c2 :: tl) ∧ c1.isDigit = true ∧ c2.isDigit = true :=
  claim4_body_prefix.1 _ "1/1/25".data "9:06:08 AM".data (by decide)

/-- Claim C5 counterexample: an item line whose trimmed name still
contains the substring " on " is NOT rejected; the code has no such
guard, so a record with item name "Rice on sale" is produced. -/
theorem claim5_counterexample :
    parse_chat_log ("[1/1/25, 8:00:00 AM] A: Goods from Store A to Shop B\nRice on sale: 5pcs") =
      [⟨some "1/1/25".data, some "8:00:00 AM".data, "Store A".data, "Shop B".data,
        "Rice on sale".data, 5, "pcs".data⟩] ∧
    containsSub " on ".data "Rice on sale".data = true :=
  ⟨by decide, by decide⟩

/-- Claim C5 (amended): the item extractor produces no record exactly
when the cleaned-up item name has length at most 1; that is the only
rejection test after the regex match. -/
theorem claim5_amended (st : St) (tt nm ds : List Char) (u : Option (List Char))
    (hs : itemSearch (stripNumbering tt) = some (nm, ds, u))
    (hlen : (rstripSet (pyStrip nm)).length ≤ 1) :
    extractItem st tt = none := by
  unfold extractItem
  split
  · rfl
  · rw [hs]
    dsimp only
    exact if_neg (by omega)

/-- Witness for the amended claim C5 at a concrete one-letter item. -/
theorem claim5_witness : extractItem initSt "x: 5".data = none :=
  claim5_amended initSt _ "x".data "5".data none (by decide) (by decide)

/-- Claim C6: header parsing of the two documented shapes: "Goods From
Store A to Shop B on 1/2/25" yields source "Store A" and destination
"Shop B" (with the trailing " on 1/2/25" stripped), and the reversed
phrasing "Goods to Shop 1 from Store 4" swaps the roles; both leave the
context active. -/
theorem claim6_header_examples :
    applyHeader initSt "Goods From Store A to Shop B on 1/2/25".data =
      ⟨none, none, "Store A".data, "Shop B".data, true⟩ ∧
    applyHeader initSt "Goods to Shop 1 from Store 4".data =
      ⟨none, none, "Store 4".data, "Shop 1".data, true⟩ :=
  ⟨by decide, by decide⟩

/-- Claim C7: every record of the output table has a non-negative
quantity (parsed from a digit run) and a unit drawn from the fixed
lower-cased vocabulary (which contains the default "pcs"). -/
theorem claim7_record_invariant (content : String) (r : Rec)
    (hr : r ∈ parse_chat_log content) :
    0 ≤ r.quantity ∧ r.unit ∈ unitVocab :=
  runLines_spec (mem_of_mem_dedupAux hr)

/-- Witness for claim C7 at a concrete transcript and record. -/
theorem claim7_witness :
    (⟨some "1/1/25".data, some "8:00:00 AM".data, "Store A".data, "Shop B".data,
        "Rice".data, 50, "kg".data⟩ : Rec) ∈
      parse_chat_log ("[1/1/25, 8:00:00 AM] A: Goods from Store A to Shop B\nRice: 50kg") ∧
    (0 ≤ (⟨some "1/1/25".data, some "8:00:00 AM".data, "Store A".data, "Shop B".data,
        "Rice".data, 50, "kg".data⟩ : Rec).quantity ∧
      (⟨some "1/1/25".data, some "8:00:00 AM".data, "Store A".data, "Shop B".data,
        "Rice".data, 50, "kg".data⟩ : Rec).unit ∈ unitVocab) :=
  ⟨by decide,
    claim7_record_invariant
      ("[1/1/25, 8:00:00 AM] A: Goods from Store A to Shop B\nRice: 50kg")
      ⟨some "1/1/25".data, some "8:00:00 AM".data, "Store A".data, "Shop B".data,
        "Rice".data, 50, "kg".data⟩ (by decide)⟩

/-- Claim C8: deduplication keeps a subsequence of the table (insertion
order preserved), the result has no duplicate full field tuples, and
every row of the input survives exactly once. -/
theorem claim8_dedup (l : List Rec) :
    List.Sublist (dedupRecords l) l ∧ (dedupRecords l).Nodup ∧
      ∀ r ∈ l, (dedupRecords l).count r = 1 :=
  ⟨dedupAux_sublist [] l, dedupAux_nodup [] l,
    fun _ hr => List.count_eq_one_of_mem (dedupAux_nodup [] l)
      (mem_dedupAux_of_mem hr (by simp))⟩

/-- Witness for claim C8 on a concrete two-element table with an exact
duplicate. -/
theorem claim8_witness :
    (⟨none, none, [], [], "Rice".data, 5, "pcs".data⟩ : Rec) ∈
      ([⟨none, none, [], [], "Rice".data, 5, "pcs".data⟩,
        ⟨none, none, [], [], "Rice".data, 5, "pcs".data⟩] : List Rec) ∧
    (dedupRecords
      [⟨none, none, [], [], "Rice".data, 5, "pcs".data⟩,
       ⟨none, none, [], [], "Rice".data, 5, "pcs".data⟩]).count
        ⟨none, none, [], [], "Rice".data, 5, "pcs".data⟩ = 1 :=
  ⟨by decide, (claim8_dedup _).2.2 _ (by decide)⟩

/-- Claim C9: deduplication is idempotent — an already-deduplicated
table is a fixed point. -/
theorem claim9_dedup_idempotent (l : List Rec) :
    dedupRecords (dedupRecords l) = dedupRecords l :=
  dedupAux_eq_self (by simp) (dedupAux_nodup [] l)

/-- Claim C10: the parse is a total function of the transcript; the
empty transcript yields the empty table, and any transcript none of
whose stripped lines contains the keyword "Goods" yields the empty
table rather than an error. -/
theorem claim10_graceful :
    parse_chat_log "" = [] ∧
    ∀ content : String,
      (∀ l ∈ splitLines content.data, containsSub "Goods".data (pyStrip l) = false) →
      parse_chat_log content = [] := by
  constructor
  · decide
  · intro content h
    show dedupRecords (runLines initSt (splitLines content.data)).2 = []
    rw [runLines_no_goods h rfl]
    rfl

/-- Witness for claim C10 on a concrete transcript with no header. -/
theorem claim10_witness :
    (∀ l ∈ splitLines "hello\nworld: 5pcs".data,
      containsSub "Goods".data (pyStrip l) = false) ∧
    parse_chat_log "hello\nworld: 5pcs" = [] :=
  ⟨by decide, claim10_graceful.2 _ (by decide)⟩

end AnikStock
